import Mathlib

/-!
Verification of the fantasy-football assistant app
(`fantasy_football_assistant_streamlit_app_starts_sits_trades_waivers.py`).

Strings are modelled as `List Char` (`Str`).  The Python library routines the
source relies on — `str.splitlines`, `str.strip`, `str.replace`, `str.split` —
are embedded with their documented semantics: `splitlines` breaks at the
Unicode line-boundary characters and treats CR LF as a single boundary and
produces no trailing empty line; `strip` removes the Unicode whitespace
characters from both ends; `replace(";", ",")` maps every semicolon to a
comma; `split(",")` cuts at every comma and keeps empty segments.  All
definitions are executable and total.
-/

namespace Fantasy

abbrev Str := List Char

/-- The characters Python's `str.strip()` removes (the CPython Unicode
whitespace set). -/
def isPyWhitespace (c : Char) : Bool :=
  (0x09 ≤ c.toNat && c.toNat ≤ 0x0D) || (0x1C ≤ c.toNat && c.toNat ≤ 0x1F) ||
  c.toNat = 0x20 || c.toNat = 0x85 || c.toNat = 0xA0 || c.toNat = 0x1680 ||
  (0x2000 ≤ c.toNat && c.toNat ≤ 0x200A) || c.toNat = 0x2028 || c.toNat = 0x2029 ||
  c.toNat = 0x202F || c.toNat = 0x205F || c.toNat = 0x3000

/-- The characters Python's `str.splitlines()` treats as line boundaries
(LF, VT, FF, CR, FS, GS, RS, NEL, LINE SEPARATOR, PARAGRAPH SEPARATOR). -/
def isLineBoundary (c : Char) : Bool :=
  (0x0A ≤ c.toNat && c.toNat ≤ 0x0D) || (0x1C ≤ c.toNat && c.toNat ≤ 0x1E) ||
  c.toNat = 0x85 || c.toNat = 0x2028 || c.toNat = 0x2029

/-- Worker for `pySplitlines`: `cur` holds the (reversed) characters of the
line being read.  CR LF counts as one boundary; the text after the last
boundary forms a final line only when it is nonempty. -/
def splitlinesGo : Str → Str → List Str
  | [], cur => if cur = [] then [] else [cur.reverse]
  | '\x0d' :: '\x0a' :: rest, cur => cur.reverse :: splitlinesGo rest []
  | c :: rest, cur =>
      if isLineBoundary c then cur.reverse :: splitlinesGo rest []
      else splitlinesGo rest (c :: cur)

/-- Python `str.splitlines()`. -/
def pySplitlines (s : Str) : List Str := splitlinesGo s []

/-- Python `str.strip()`: drop whitespace from the front, then from the back. -/
def pyStrip (s : Str) : Str :=
  ((s.dropWhile isPyWhitespace).reverse.dropWhile isPyWhitespace).reverse

/-- Python `chunk.replace(";", ",")` (single-character replacement). -/
def replSemi (s : Str) : Str := s.map (fun c => if c = ';' then ',' else c)

/-- Python `s.split(",")`: cut at every comma, keeping empty segments
(`"".split(",") = [""]`). -/
def splitComma : Str → List Str
  | [] => [[]]
  | c :: rest =>
      if c = ',' then [] :: splitComma rest
      else
        match splitComma rest with
        | [] => [[c]]
        | h :: t => (c :: h) :: t

/-- The source's `parse_pasted_list`:
`if not txt: return []`;
`parts = [p.strip() for chunk in txt.splitlines() for p in chunk.replace(";", ",").split(",")]`;
`return [p for p in parts if p]`. -/
def parse_pasted_list (txt : Str) : List Str :=
  if txt = [] then []
  else
    (((pySplitlines txt).map (fun chunk => splitComma (replSemi chunk))).flatten.map
      pyStrip).filter (fun p => !p.isEmpty)

/-- Splitting at every comma and every semicolon in one pass, keeping empty
segments — the spec's "split each line on commas and semicolons". -/
def splitCommaSemi : Str → List Str
  | [] => [[]]
  | c :: rest =>
      if c = ',' ∨ c = ';' then [] :: splitCommaSemi rest
      else
        match splitCommaSemi rest with
        | [] => [[c]]
        | h :: t => (c :: h) :: t

/-- Modelled from the spec §4.1 wording: split the input into lines, split
each line on commas and semicolons, trim whitespace from each piece, drop
empty pieces. -/
def parseSpec (txt : Str) : List Str :=
  (((pySplitlines txt).map splitCommaSemi).flatten.map pyStrip).filter
    (fun p => !p.isEmpty)

/-- Join a list of names with the comma separator. -/
def joinComma : List Str → Str
  | [] => []
  | [e] => e
  | e :: rest => e ++ ',' :: joinComma rest

/-! ## The analysis flow

The body of `if st.button("🔎 Analyze my week")` is embedded as the function
`run`.  The two outbound services are abstracted by oracles: `net` stands for
the Google custom-search endpoint (`service.cse().list(...).execute()`
together with the field extraction `res.get("items", [])`), and `ai` for the
OpenAI chat-completion endpoint; an oracle result of `exn` models the call
raising an exception.  Instead of the serialized JSON strings the embedding
carries the dictionaries that the source serializes (`user_payload`,
`export`) as structures — `json.dumps` is injective on them, so equality of
the structures is equality of the serialized documents.  Each external
function additionally reports which network calls it attempted, which the
source performs as side effects. -/

/-- The three environment credentials read at startup; an absent variable is
the empty string (`os.getenv(..., "")`). -/
structure Config where
  OPENAI_API_KEY : Str
  GOOGLE_CSE_ID : Str
  GOOGLE_API_KEY : Str
deriving DecidableEq

/-- One entry of the search response's `items` list; every field is optional
(the source reads each with `it.get(key, "")`). -/
structure RawItem where
  title : Option Str
  link : Option Str
  snippet : Option Str
deriving DecidableEq

/-- Outcome of one Google custom-search network call: the `items` list of the
response (missing `items` is `ok []`), or an exception. -/
inductive NetResult where
  | ok (items : List RawItem)
  | exn
deriving DecidableEq

/-- A snippet record built by `google_news_snippets`. -/
structure SearchItem where
  title : Str
  link : Str
  snippet : Str
deriving DecidableEq

/-- The fixed query suffix `" NFL news injury status"`. -/
def newsQuerySuffix : Str := " NFL news injury status".toList

/-- The source's `google_news_snippets`.  Returns the snippet list
together with the list of search queries for which a network call was
attempted (empty or a singleton).  Guard as in the source:
`if not (GOOGLE_CSE_ID and GOOGLE_API_KEY) or not query: return []`;
any exception from the call yields `[]`. -/
def google_news_snippets (cfg : Config) (net : Str → Nat → NetResult)
    (query : Str) (num : Nat) : List SearchItem × List Str :=
  if (cfg.GOOGLE_CSE_ID = [] ∨ cfg.GOOGLE_API_KEY = []) ∨ query = [] then ([], [])
  else
    let q := query ++ newsQuerySuffix
    match net q num with
    | NetResult.exn => ([], [q])
    | NetResult.ok items =>
        (items.map (fun it => ⟨it.title.getD [], it.link.getD [], it.snippet.getD []⟩),
         [q])

/-- Outcome of one chat-completion network call: the message content, or an
exception carrying `str(e)`. -/
inductive AiResult where
  | ok (content : Str)
  | exn (msg : Str)
deriving DecidableEq

/-- The fixed placeholder `"(AI disabled — add OPENAI_API_KEY to enable analysis.)"`. -/
def aiDisabledPlaceholder : Str :=
  "(AI disabled — add OPENAI_API_KEY to enable analysis.)".toList

/-- The error placeholder the source builds with an f-string around the
exception text. -/
def aiErrorText (e : Str) : Str := "(AI error: ".toList ++ e ++ [')']

/-- The payload sent as the user message (the source serializes it with
`json.dumps(user_payload, indent=2)`). -/
structure UserPayload where
  scoring : Str
  risk_tolerance : Nat
  week : Nat
  starters : List Str
  bench : List Str
  free_agents : List Str
  trade_targets : List Str
  notes : Str
  google_snippets : List (Str × List SearchItem)
deriving DecidableEq

/-- The assembled user prompt: the fixed task text followed by the serialized
payload. -/
structure UserPromptMsg where
  task : Str
  payload : UserPayload
deriving DecidableEq

/-- The source's `openai_complete`, with the endpoint abstracted by the
oracle `ai` (fixed model `gpt-4o-mini` and temperature 0.2 are constants of
the call and carry no information).  The Bool records whether the endpoint
was attempted. -/
def openai_complete (cfg : Config) (ai : Str → UserPromptMsg → AiResult)
    (system_prompt : Str) (user_prompt : UserPromptMsg) : Str × Bool :=
  if cfg.OPENAI_API_KEY = [] then (aiDisabledPlaceholder, false)
  else
    match ai system_prompt user_prompt with
    | AiResult.ok content => (content, true)
    | AiResult.exn e => (aiErrorText e, true)

/-- The form fields and toggles collected from the user before the button
press. -/
structure Inputs where
  use_ai : Bool
  use_google : Bool
  scoring : Str
  risk_tolerance : Nat
  week : Nat
  sleeper_league_id : Str
  starters_txt : Str
  bench_txt : Str
  fa_txt : Str
  trade_targets_txt : Str
  notes : Str
deriving DecidableEq

/-- The source's `names_for_news`:
`starters + bench + trade_targets + free_agents[:10]`, then
`[n for i, n in enumerate(names_for_news) if n and i < 25]`. -/
def names_for_news (starters bench trade_targets free_agents : List Str) : List Str :=
  let l := starters ++ bench ++ trade_targets ++ free_agents.take 10
  l.enum.filterMap (fun p => if p.2 ≠ [] ∧ p.1 < 25 then some p.2 else none)

/-- Python dict assignment `d[k] = v`: an existing key keeps its position and
gets the new value; a new key is appended. -/
def dictInsert (m : List (Str × List SearchItem)) (k : Str) (v : List SearchItem) :
    List (Str × List SearchItem) :=
  if m.any (fun q => q.1 = k) then m.map (fun q => if q.1 = k then (k, v) else q)
  else m ++ [(k, v)]

/-- The snippet loop `for name in names_for_news: snippets[name] =
google_news_snippets(name, num=2)`, threading the dict and collecting the
attempted network queries. -/
def snippetsFold (cfg : Config) (net : Str → Nat → NetResult) :
    List Str → List (Str × List SearchItem) → List (Str × List SearchItem) × List Str
  | [], acc => (acc, [])
  | name :: rest, acc =>
      let r := google_news_snippets cfg net name 2
      let res := snippetsFold cfg net rest (dictInsert acc name r.1)
      (res.1, r.2 ++ res.2)

/-- The fixed system prompt string. -/
def systemPromptText : Str :=
  ("You are a sharp fantasy football analyst. Give clear, concise bullets. Weigh recent usage, health, floor/ceiling, matchup, and roster construction. Tailor advice to the scoring format and risk tolerance.").toList

/-- The fixed leading text of the user prompt, up to and including
`"INPUT JSON:\n"`; the serialized payload follows it. -/
def taskText : Str :=
  ("Analyze my roster for this week.\nTasks:\n1) START/SIT: Suggest swaps to maximize expected points and balance risk.\n2) WAIVERS: Rank top 5-10 adds from my FA list with quick reasoning and suggested FAAB/priority.\n3) TRADES: Offer 2-4 realistic trade ideas (give + get) with reasoning.\n4) WATCHLIST: 5 stash names from FA for upside.\nKeep it under ~300 words per section.\n\nINPUT JSON:\n").toList

/-- The manual-template placeholder used when the AI toggle is off. -/
def manualTemplate : Str :=
  ("(AI disabled) Use the sections below as a template for manual notes.\n\n• START/SIT: …\n• WAIVERS: …\n• TRADES: …\n• WATCHLIST: …").toList

/-- The per-run settings record reused inside the export. -/
structure Settings where
  scoring : Str
  risk_tolerance : Nat
  week : Nat
deriving DecidableEq

/-- The export dict offered as the downloadable JSON report. -/
structure Export where
  timestamp : Nat
  settings : Settings
  inputs : UserPayload
  analysis : Str
deriving DecidableEq

/-- The external effects of one run: the names passed to
`google_news_snippets`, the search queries for which a network call was
attempted, and whether the completion endpoint was attempted. -/
structure Trace where
  snippetCalls : List Str
  netSearchCalls : List Str
  aiNetCall : Bool
deriving DecidableEq

/-- Result of a button press: `halted` is the `st.error(...)` / `st.stop()`
state (nothing further runs); `done` carries the effect trace, the assembled
user prompt, the analysis text, and the export document. -/
inductive RunResult where
  | halted
  | done (trace : Trace) (user_prompt : UserPromptMsg) (analysis : Str) (report : Export)
deriving DecidableEq

/-- The `st.button("🔎 Analyze my week")` handler, translated statement by
statement; `ts` stands for `int(time.time())`. -/
def run (cfg : Config) (net : Str → Nat → NetResult) (ai : Str → UserPromptMsg → AiResult)
    (ts : Nat) (inp : Inputs) : RunResult :=
  let starters := parse_pasted_list inp.starters_txt
  let bench := parse_pasted_list inp.bench_txt
  let free_agents := parse_pasted_list inp.fa_txt
  let trade_targets := parse_pasted_list inp.trade_targets_txt
  if starters = [] then RunResult.halted
  else
    let searchRes :=
      if inp.use_google then
        let nfn := names_for_news starters bench trade_targets free_agents
        (snippetsFold cfg net nfn [], nfn)
      else (([], []), [])
    let snippets := searchRes.1.1
    let user_payload : UserPayload :=
      ⟨inp.scoring, inp.risk_tolerance, inp.week, starters, bench, free_agents,
       trade_targets, inp.notes, snippets⟩
    let user_prompt : UserPromptMsg := ⟨taskText, user_payload⟩
    let aiRes :=
      if inp.use_ai then openai_complete cfg ai systemPromptText user_prompt
      else (manualTemplate, false)
    let analysis := aiRes.1
    let report : Export :=
      ⟨ts, ⟨inp.scoring, inp.risk_tolerance, inp.week⟩, user_payload, analysis⟩
    RunResult.done ⟨searchRes.2, searchRes.1.2, aiRes.2⟩ user_prompt analysis report

/-- Names passed to `google_news_snippets` during a run. -/
def snippetCallsOf : RunResult → List Str
  | RunResult.halted => []
  | RunResult.done t _ _ _ => t.snippetCalls

/-- Search queries for which a network call was attempted during a run. -/
def netSearchCallsOf : RunResult → List Str
  | RunResult.halted => []
  | RunResult.done t _ _ _ => t.netSearchCalls

/-- Whether the completion endpoint was attempted during a run. -/
def aiNetCallOf : RunResult → Bool
  | RunResult.halted => false
  | RunResult.done t _ _ _ => t.aiNetCall

/-- The analysis text produced by a run, if any. -/
def analysisOf : RunResult → Option Str
  | RunResult.halted => none
  | RunResult.done _ _ a _ => some a

/-- The export document produced by a run, if any. -/
def exportOf : RunResult → Option Export
  | RunResult.halted => none
  | RunResult.done _ _ _ e => some e

/-- The snippet map of a run's payload, if any. -/
def googleSnippetsOf : RunResult → Option (List (Str × List SearchItem))
  | RunResult.halted => none
  | RunResult.done _ p _ _ => some p.payload.google_snippets

/-- A search oracle whose every call raises. -/
def netNone : Str → Nat → NetResult := fun _ _ => NetResult.exn

/-- A completion oracle whose every call raises. -/
def aiNone : Str → UserPromptMsg → AiResult := fun _ _ => AiResult.exn []

/-- A configuration with only the completion credential set. -/
def cfgNoSearch : Config := ⟨"sk".toList, [], []⟩

/-- A configuration with only the search credentials set. -/
def cfgNoAi : Config := ⟨[], "cse".toList, "gk".toList⟩

/-- Inputs with one starter and the search toggle on. -/
def inpSearchOn : Inputs :=
  ⟨false, true, [], 5, 1, [], "A".toList, [], [], [], []⟩

/-- Inputs with one starter and the AI toggle on. -/
def inpAiOn : Inputs :=
  ⟨true, false, [], 5, 1, [], "A".toList, [], [], [], []⟩

/-- Inputs whose starters field is empty. -/
def inpNoStarters : Inputs :=
  ⟨true, true, [], 5, 1, [], [], "B1".toList, "F1".toList, "T1".toList, []⟩

/-- A fixed payload used to exercise the completion client. -/
def payload0 : UserPayload := ⟨[], 0, 1, [], [], [], [], [], []⟩

/-- A fixed user prompt used to exercise the completion client. -/
def prompt0 : UserPromptMsg := ⟨taskText, payload0⟩

/-- The payload assembled in the C8 end-to-end scenario. -/
def payload8 (scoring : Str) (rt wk : Nat) : UserPayload :=
  ⟨scoring, rt, wk, ["QB Bo".toList, "RB Al".toList], [], [], [], [], []⟩

/-- The inputs of the C8 end-to-end scenario: starters `"QB Bo, RB Al"`,
everything else empty, both integrations toggled off. -/
def inputs8 (scoring : Str) (rt wk : Nat) (lid : Str) : Inputs :=
  ⟨false, false, scoring, rt, wk, lid, "QB Bo, RB Al".toList, [], [], [], []⟩

/-! ## Sanity evaluations of the embedding on concrete inputs -/

theorem eval_parse_two_starters :
    parse_pasted_list "QB Bo, RB Al".toList = ["QB Bo".toList, "RB Al".toList] := by decide

theorem eval_parse_mixed_separators :
    parse_pasted_list " a ;b\n\nc,,".toList = ["a".toList, "b".toList, "c".toList] := by
  decide

theorem eval_parse_empty : parse_pasted_list "".toList = [] := by decide

theorem eval_pySplitlines_crlf :
    pySplitlines "a\x0d\x0ab".toList = ["a".toList, "b".toList] := by decide

theorem eval_joinComma : joinComma ["a".toList, "b".toList] = "a,b".toList := by decide

/-! ## Lemmas about the parser -/

theorem splitComma_ne_nil (s : Str) : splitComma s ≠ [] := by
  induction s with
  | nil => simp [splitComma]
  | cons c rest ih =>
    simp only [splitComma]
    split
    · simp
    · cases h : splitComma rest <;> simp

theorem splitComma_replSemi (s : Str) : splitComma (replSemi s) = splitCommaSemi s := by
  induction s with
  | nil => rfl
  | cons c rest ih =>
    simp only [replSemi, List.map_cons] at ih ⊢
    by_cases hc : c = ';'
    · subst hc; simp [splitComma, splitCommaSemi, ih]
    · by_cases hc2 : c = ','
      · subst hc2; simp [splitComma, splitCommaSemi, hc, ih]
      · simp [splitComma, splitCommaSemi, hc, hc2, ih]

/-- C1: For every input string, `parse_pasted_list` returns the ordered
sequence obtained by splitting the input into lines (at the line boundaries
of Python's `splitlines`, i.e. on newlines), splitting each line on commas
and semicolons, trimming whitespace from each piece, and dropping empty
pieces; the empty input yields the empty sequence.  The translated function
is total, so no input raises an error. -/
theorem parse_pasted_list_matches_spec :
    (∀ txt : Str, parse_pasted_list txt = parseSpec txt) ∧
      parse_pasted_list [] = [] := by
  constructor
  · intro txt
    by_cases h : txt = []
    · subst h; rfl
    · simp only [parse_pasted_list, if_neg h, parseSpec, splitComma_replSemi]
  · rfl

/-- C2: For every input string, the (total) parser returns no empty string. -/
theorem parse_pasted_list_no_empty (txt : Str) :
    (parse_pasted_list txt).all (fun p => !p.isEmpty) = true := by
  rw [List.all_eq_true]
  intro p hp
  by_cases h : txt = []
  · subst h; simp [parse_pasted_list] at hp
  · simp only [parse_pasted_list, if_neg h] at hp
    exact (List.mem_filter.mp hp).2

theorem head?_dropWhile_not {α : Type} {p : α → Bool} :
    ∀ {l : List α} {c : α}, (l.dropWhile p).head? = some c → p c = false := by
  intro l
  induction l with
  | nil => intro c h; simp [List.dropWhile] at h
  | cons a t ih =>
    intro c h
    rw [List.dropWhile_cons] at h
    split at h
    · exact ih h
    · rename_i ha
      simp only [List.head?_cons, Option.some.injEq] at h
      subst h
      simpa using ha

theorem dropWhile_eq_self_of_head? {α : Type} {p : α → Bool} {l : List α}
    (h : ∀ c, l.head? = some c → p c = false) : l.dropWhile p = l := by
  cases l with
  | nil => rfl
  | cons a t => rw [List.dropWhile_cons, if_neg (by simp [h a rfl])]

theorem mem_of_mem_dropWhile {α : Type} {p : α → Bool} :
    ∀ {l : List α} {c : α}, c ∈ l.dropWhile p → c ∈ l := by
  intro l
  induction l with
  | nil => intro c h; simp [List.dropWhile] at h
  | cons a t ih =>
    intro c h
    rw [List.dropWhile_cons] at h
    split at h
    · exact List.mem_cons_of_mem _ (ih h)
    · exact h

theorem mem_of_mem_pyStrip {s : Str} {c : Char} (h : c ∈ pyStrip s) : c ∈ s := by
  unfold pyStrip at h
  rw [List.mem_reverse] at h
  have h2 := mem_of_mem_dropWhile h
  rw [List.mem_reverse] at h2
  exact mem_of_mem_dropWhile h2

theorem head?_append_left {α : Type} {a b : List α} {c : α}
    (h : a.head? = some c) : (a ++ b).head? = some c := by
  cases a with
  | nil => simp at h
  | cons x t => simpa using h

theorem pyStrip_head? {s : Str} {c : Char} (h : (pyStrip s).head? = some c) :
    isPyWhitespace c = false := by
  unfold pyStrip at h
  have hsplit := List.takeWhile_append_dropWhile
    (p := isPyWhitespace) (l := (s.dropWhile isPyWhitespace).reverse)
  have hrev : ((s.dropWhile isPyWhitespace).reverse.dropWhile isPyWhitespace).reverse ++
      ((s.dropWhile isPyWhitespace).reverse.takeWhile isPyWhitespace).reverse =
      s.dropWhile isPyWhitespace := by
    rw [← List.reverse_append, hsplit, List.reverse_reverse]
  have ht : (s.dropWhile isPyWhitespace).head? = some c := by
    rw [← hrev]; exact head?_append_left h
  exact head?_dropWhile_not ht

theorem pyStrip_getLast? {s : Str} {c : Char} (h : (pyStrip s).getLast? = some c) :
    isPyWhitespace c = false := by
  unfold pyStrip at h
  rw [List.getLast?_reverse] at h
  exact head?_dropWhile_not h

theorem pyStrip_of_clean {r : Str}
    (h1 : ∀ c, r.head? = some c → isPyWhitespace c = false)
    (h2 : ∀ c, r.getLast? = some c → isPyWhitespace c = false) :
    pyStrip r = r := by
  unfold pyStrip
  rw [dropWhile_eq_self_of_head? h1,
    dropWhile_eq_self_of_head? (fun c hc => h2 c (by rwa [List.head?_reverse] at hc)),
    List.reverse_reverse]

theorem pyStrip_idem (s : Str) : pyStrip (pyStrip s) = pyStrip s :=
  pyStrip_of_clean (fun _ hc => pyStrip_head? hc) (fun _ hc => pyStrip_getLast? hc)

theorem splitlinesGo_no_boundary :
    ∀ (s cur : Str), (∀ c ∈ cur, isLineBoundary c = false) →
      ∀ chunk ∈ splitlinesGo s cur, ∀ c ∈ chunk, isLineBoundary c = false := by
  intro s cur
  induction s, cur using splitlinesGo.induct with
  | case1 =>
    intro _ chunk hchunk c _
    rw [splitlinesGo.eq_1] at hchunk
    simp at hchunk
  | case2 cur hcur0 =>
    intro hcur chunk hchunk c hc
    rw [splitlinesGo.eq_1, if_neg hcur0] at hchunk
    simp only [List.mem_singleton] at hchunk
    subst hchunk
    exact hcur c (List.mem_reverse.mp hc)
  | case3 rest cur ih =>
    intro hcur chunk hchunk c hc
    rw [splitlinesGo.eq_2] at hchunk
    rcases List.mem_cons.mp hchunk with h | h
    · subst h; exact hcur c (List.mem_reverse.mp hc)
    · exact ih (by simp) chunk h c hc
  | case4 c0 rest cur hne hb ih =>
    intro hcur chunk hchunk c hc
    rw [splitlinesGo.eq_3 cur c0 rest hne, if_pos hb] at hchunk
    rcases List.mem_cons.mp hchunk with h | h
    · subst h; exact hcur c (List.mem_reverse.mp hc)
    · exact ih (by simp) chunk h c hc
  | case5 c0 rest cur hne hb ih =>
    intro hcur chunk hchunk c hc
    rw [splitlinesGo.eq_3 cur c0 rest hne, if_neg hb] at hchunk
    refine ih ?_ chunk hchunk c hc
    intro d hd
    rcases List.mem_cons.mp hd with h | h
    · subst h; simpa using hb
    · exact hcur d h

theorem splitlinesGo_of_no_boundary :
    ∀ (s cur : Str), (∀ c ∈ s, isLineBoundary c = false) →
      splitlinesGo s cur =
        if cur.reverse ++ s = [] then [] else [cur.reverse ++ s] := by
  intro s cur
  induction s, cur using splitlinesGo.induct with
  | case1 =>
    intro _
    rw [splitlinesGo.eq_1]
    simp
  | case2 cur hcur0 =>
    intro _
    rw [splitlinesGo.eq_1]
    simp [hcur0]
  | case3 rest cur ih =>
    intro hs
    have h1 := hs '\x0d' (by simp)
    have h2 : isLineBoundary '\x0d' = true := by decide
    rw [h2] at h1
    exact absurd h1 (by simp)
  | case4 c0 rest cur hne hb ih =>
    intro hs
    have h1 := hs c0 (by simp)
    rw [hb] at h1
    exact absurd h1 (by simp)
  | case5 c0 rest cur hne hb ih =>
    intro hs
    rw [splitlinesGo.eq_3 cur c0 rest hne, if_neg hb]
    rw [ih (fun c hc => hs c (List.mem_cons_of_mem _ hc))]
    simp [List.append_assoc]

theorem pySplitlines_single {s : Str} (hs : s ≠ [])
    (h : ∀ c ∈ s, isLineBoundary c = false) : pySplitlines s = [s] := by
  unfold pySplitlines
  rw [splitlinesGo_of_no_boundary s [] h]
  simp [hs]

theorem splitComma_subset : ∀ {s p : Str}, p ∈ splitComma s → ∀ c ∈ p, c ∈ s := by
  intro s
  induction s with
  | nil =>
    intro p hp c hc
    simp only [splitComma, List.mem_singleton] at hp
    subst hp
    simp at hc
  | cons a rest ih =>
    intro p hp c hc
    simp only [splitComma] at hp
    split at hp
    · rcases List.mem_cons.mp hp with h | h
      · subst h; simp at hc
      · exact List.mem_cons_of_mem _ (ih h c hc)
    · rcases hm : splitComma rest with _ | ⟨h0, t⟩
      · rw [hm] at hp
        simp only [List.mem_singleton] at hp
        subst hp
        rcases List.mem_cons.mp hc with h | h
        · subst h; simp
        · simp at h
      · rw [hm] at hp
        rcases List.mem_cons.mp hp with h | h
        · subst h
          rcases List.mem_cons.mp hc with h' | h'
          · subst h'; simp
          · refine List.mem_cons_of_mem _ (ih ?_ c h')
            rw [hm]; exact List.mem_cons_self h0 t
        · refine List.mem_cons_of_mem _ (ih ?_ c hc)
          rw [hm]; exact List.mem_cons_of_mem _ h

theorem splitComma_no_comma : ∀ {s p : Str}, p ∈ splitComma s → ',' ∉ p := by
  intro s
  induction s with
  | nil =>
    intro p hp
    simp only [splitComma, List.mem_singleton] at hp
    subst hp
    simp
  | cons a rest ih =>
    intro p hp
    simp only [splitComma] at hp
    split at hp
    · rcases List.mem_cons.mp hp with h | h
      · subst h; simp
      · exact ih h
    · rename_i ha
      rcases hm : splitComma rest with _ | ⟨h0, t⟩
      · rw [hm] at hp
        simp only [List.mem_singleton] at hp
        subst hp
        intro hc
        rcases List.mem_cons.mp hc with h | h
        · exact ha h.symm
        · simp at h
      · rw [hm] at hp
        rcases List.mem_cons.mp hp with h | h
        · subst h
          intro hc
          rcases List.mem_cons.mp hc with h' | h'
          · exact ha h'.symm
          · exact ih (by rw [hm]; exact List.mem_cons_self h0 t) h'
        · exact ih (by rw [hm]; exact List.mem_cons_of_mem _ h)

/-- Every element of a parse result is nonempty, already stripped, and
contains no line-boundary character, no comma, and no semicolon. -/
theorem parse_clean {txt e : Str} (he : e ∈ parse_pasted_list txt) :
    e ≠ [] ∧ pyStrip e = e ∧
      ∀ c ∈ e, isLineBoundary c = false ∧ c ≠ ',' ∧ c ≠ ';' := by
  by_cases h : txt = []
  · subst h; simp [parse_pasted_list] at he
  · simp only [parse_pasted_list, if_neg h] at he
    obtain ⟨hmem, hne⟩ := List.mem_filter.mp he
    obtain ⟨p, hp, rfl⟩ := List.mem_map.mp hmem
    obtain ⟨piecesl, hpiecesl, hp2⟩ := List.mem_flatten.mp hp
    obtain ⟨chunk, hchunk, rfl⟩ := List.mem_map.mp hpiecesl
    refine ⟨by simpa using hne, pyStrip_idem p, ?_⟩
    intro c hc
    have hcp : c ∈ p := mem_of_mem_pyStrip hc
    have hcr : c ∈ replSemi chunk := splitComma_subset hp2 c hcp
    have hnocomma : c ≠ ',' := fun hcc => splitComma_no_comma hp2 (hcc ▸ hcp)
    have hchunknb : ∀ x ∈ chunk, isLineBoundary x = false :=
      splitlinesGo_no_boundary txt [] (by simp) chunk hchunk
    obtain ⟨d, hd, hde⟩ := List.mem_map.mp hcr
    by_cases hds : d = ';'
    · subst hds
      rw [if_pos rfl] at hde
      exact absurd hde.symm hnocomma
    · rw [if_neg hds] at hde
      subst hde
      exact ⟨hchunknb d hd, hnocomma, hds⟩

theorem splitComma_of_no_comma {e : Str} (h : ',' ∉ e) : splitComma e = [e] := by
  induction e with
  | nil => rfl
  | cons c rest ih =>
    simp only [splitComma]
    rw [if_neg (fun hc => h (by rw [hc]; exact List.mem_cons_self ',' rest)),
      ih (fun hm => h (List.mem_cons_of_mem c hm))]

theorem splitComma_append {e : Str} (s : Str) (h : ',' ∉ e) :
    splitComma (e ++ ',' :: s) = e :: splitComma s := by
  induction e with
  | nil => simp [splitComma]
  | cons c rest ih =>
    simp only [List.cons_append, splitComma]
    rw [if_neg (fun hc => h (by rw [hc]; exact List.mem_cons_self ',' rest))]
    simp only [List.append_eq]
    rw [ih (fun hm => h (List.mem_cons_of_mem c hm))]

theorem mem_joinComma : ∀ {l : List Str} {c : Char}, c ∈ joinComma l →
    c = ',' ∨ ∃ e ∈ l, c ∈ e := by
  intro l
  induction l with
  | nil => intro c h; simp [joinComma] at h
  | cons e rest ih =>
    intro c h
    cases rest with
    | nil =>
      right
      exact ⟨e, List.mem_cons_self e [], by simpa [joinComma] using h⟩
    | cons f t =>
      simp only [joinComma] at h
      rcases List.mem_append.mp h with h1 | h2
      · right; exact ⟨e, List.mem_cons_self e (f :: t), h1⟩
      · rcases List.mem_cons.mp h2 with h3 | h4
        · left; exact h3
        · rcases ih h4 with h5 | ⟨g, hg, hcg⟩
          · left; exact h5
          · right; exact ⟨g, List.mem_cons_of_mem _ hg, hcg⟩

theorem joinComma_ne_nil : ∀ {l : List Str}, l ≠ [] → (∀ e ∈ l, e ≠ []) →
    joinComma l ≠ [] := by
  intro l hl h
  cases l with
  | nil => exact absurd rfl hl
  | cons e rest =>
    cases rest with
    | nil => simpa [joinComma] using h e (List.mem_cons_self e [])
    | cons f t =>
      simp only [joinComma]
      intro hc
      rcases List.append_eq_nil.mp hc with ⟨_, h2⟩
      simp at h2

theorem splitComma_joinComma : ∀ {l : List Str}, l ≠ [] → (∀ e ∈ l, ',' ∉ e) →
    splitComma (joinComma l) = l := by
  intro l
  induction l with
  | nil => intro hl _; exact absurd rfl hl
  | cons e rest ih =>
    intro _ h
    cases rest with
    | nil => exact splitComma_of_no_comma (h e (List.mem_cons_self e []))
    | cons f t =>
      show splitComma (e ++ ',' :: joinComma (f :: t)) = e :: f :: t
      rw [splitComma_append _ (h e (List.mem_cons_self e (f :: t))),
        ih (by simp) (fun x hx => h x (List.mem_cons_of_mem _ hx))]

theorem replSemi_eq_self {s : Str} (h : ∀ c ∈ s, c ≠ ';') : replSemi s = s := by
  induction s with
  | nil => rfl
  | cons c rest ih =>
    simp only [replSemi, List.map_cons] at ih ⊢
    rw [if_neg (h c (List.mem_cons_self c rest)),
      ih (fun x hx => h x (List.mem_cons_of_mem _ hx))]

theorem map_pyStrip_id : ∀ {l : List Str}, (∀ e ∈ l, pyStrip e = e) →
    l.map pyStrip = l := by
  intro l
  induction l with
  | nil => intro _; rfl
  | cons e rest ih =>
    intro h
    simp only [List.map_cons]
    rw [h e (List.mem_cons_self e rest),
      ih (fun x hx => h x (List.mem_cons_of_mem _ hx))]

theorem filter_nonempty_id : ∀ {l : List Str}, (∀ e ∈ l, e ≠ []) →
    l.filter (fun p => !p.isEmpty) = l := by
  intro l
  induction l with
  | nil => intro _; rfl
  | cons e rest ih =>
    intro h
    rw [List.filter_cons, if_pos (by simpa using h e (List.mem_cons_self e rest)),
      ih (fun x hx => h x (List.mem_cons_of_mem _ hx))]

/-- C3: parsing the comma-join of a parse result yields that parse result
again. -/
theorem parse_pasted_list_join_idem (txt : Str) :
    parse_pasted_list (joinComma (parse_pasted_list txt)) = parse_pasted_list txt := by
  by_cases h0 : parse_pasted_list txt = []
  · rw [h0]; rfl
  · have hclean := fun e (he : e ∈ parse_pasted_list txt) => parse_clean he
    have hne : ∀ e ∈ parse_pasted_list txt, e ≠ [] := fun e he => (hclean e he).1
    have hJne : joinComma (parse_pasted_list txt) ≠ [] := joinComma_ne_nil h0 hne
    have hJnb : ∀ c ∈ joinComma (parse_pasted_list txt), isLineBoundary c = false := by
      intro c hc
      rcases mem_joinComma hc with rfl | ⟨e, he, hce⟩
      · decide
      · exact ((hclean e he).2.2 c hce).1
    have hJns : ∀ c ∈ joinComma (parse_pasted_list txt), c ≠ ';' := by
      intro c hc
      rcases mem_joinComma hc with rfl | ⟨e, he, hce⟩
      · decide
      · exact ((hclean e he).2.2 c hce).2.2
    have hnc : ∀ e ∈ parse_pasted_list txt, ',' ∉ e := by
      intro e he hce
      exact ((hclean e he).2.2 ',' hce).2.1 rfl
    rw [parse_pasted_list.eq_def, if_neg hJne, pySplitlines_single hJne hJnb,
      List.map_cons, List.map_nil, List.flatten_cons, List.flatten_nil,
      List.append_nil, replSemi_eq_self hJns, splitComma_joinComma h0 hnc,
      map_pyStrip_id (fun e he => (hclean e he).2.1), filter_nonempty_id hne]

/-! ## Lemmas about the snippet-name selection -/

theorem enumFrom_filterMap_take (k : Nat) :
    ∀ (l : List Str) (n : Nat), (∀ e ∈ l, e ≠ []) →
      (l.enumFrom n).filterMap
          (fun p => if p.2 ≠ [] ∧ p.1 < k then some p.2 else none) =
        if n < k then l.take (k - n) else [] := by
  intro l
  induction l with
  | nil => intro n _; simp
  | cons a rest ih =>
    intro n h
    have ha : a ≠ [] := h a (List.mem_cons_self a rest)
    have hrest : ∀ e ∈ rest, e ≠ [] := fun e he => h e (List.mem_cons_of_mem _ he)
    rw [List.enumFrom_cons]
    by_cases hn : n < k
    · rw [if_pos hn,
        List.filterMap_cons_some (b := a) (by rw [if_pos (show a ≠ [] ∧ n < k from ⟨ha, hn⟩)]),
        ih (n + 1) hrest]
      have hk : k - n = (k - (n + 1)) + 1 := by omega
      rw [hk, List.take_succ_cons]
      by_cases hn2 : n + 1 < k
      · rw [if_pos hn2]
      · rw [if_neg hn2]
        have h0 : k - (n + 1) = 0 := by omega
        rw [h0, List.take_zero]
    · rw [if_neg hn,
        List.filterMap_cons_none (by rw [if_neg (fun q : a ≠ [] ∧ n < k => hn q.2)]),
        ih (n + 1) hrest, if_neg (by omega)]

theorem names_for_news_eq {starters bench trade_targets free_agents : List Str}
    (h : ∀ e ∈ starters ++ bench ++ trade_targets ++ free_agents.take 10, e ≠ []) :
    names_for_news starters bench trade_targets free_agents =
      (starters ++ bench ++ trade_targets ++ free_agents.take 10).take 25 := by
  show (((starters ++ bench ++ trade_targets ++ free_agents.take 10).enumFrom 0).filterMap
      (fun p => if p.2 ≠ [] ∧ p.1 < 25 then some p.2 else none)) = _
  rw [enumFrom_filterMap_take 25 _ 0 h, if_pos (by omega)]

theorem parse_mem_ne_nil {txt e : Str} (he : e ∈ parse_pasted_list txt) : e ≠ [] :=
  (parse_clean he).1

theorem names_for_news_parse_take (a b c d : Str) :
    names_for_news (parse_pasted_list a) (parse_pasted_list b) (parse_pasted_list c)
        (parse_pasted_list d) =
      (parse_pasted_list a ++ parse_pasted_list b ++ parse_pasted_list c ++
        (parse_pasted_list d).take 10).take 25 := by
  apply names_for_news_eq
  intro e he
  rcases List.mem_append.mp he with h1 | h2
  · rcases List.mem_append.mp h1 with h3 | h4
    · rcases List.mem_append.mp h3 with h5 | h6
      · exact parse_mem_ne_nil h5
      · exact parse_mem_ne_nil h6
    · exact parse_mem_ne_nil h4
  · exact parse_mem_ne_nil (List.take_subset 10 _ h2)

/-- C10: the list of names eligible for snippet fetching is exactly the
concatenation of starters, bench, trade targets, and the first 10 free
agents, in that order, truncated to the first 25 positions, with no
deduplication; positions of the free-agent list beyond the tenth are never
included. -/
theorem names_for_news_spec (a b c d : Str) :
    names_for_news (parse_pasted_list a) (parse_pasted_list b) (parse_pasted_list c)
        (parse_pasted_list d) =
      (parse_pasted_list a ++ parse_pasted_list b ++ parse_pasted_list c ++
        (parse_pasted_list d).take 10).take 25 :=
  names_for_news_parse_take a b c d

/-! ## Lemmas about the analysis flow -/

theorem snippetCallsOf_run (cfg : Config) (net : Str → Nat → NetResult)
    (ai : Str → UserPromptMsg → AiResult) (ts : Nat) (inp : Inputs) :
    snippetCallsOf (run cfg net ai ts inp) =
      if parse_pasted_list inp.starters_txt = [] then []
      else if inp.use_google then
        names_for_news (parse_pasted_list inp.starters_txt)
          (parse_pasted_list inp.bench_txt) (parse_pasted_list inp.trade_targets_txt)
          (parse_pasted_list inp.fa_txt)
      else [] := by
  simp only [run]
  split
  · rfl
  · simp only [snippetCallsOf]
    split
    · rfl
    · rfl

/-- C7: the number of snippet-fetch invocations in one run never exceeds 25,
and in particular at most 25 distinct names receive a search call, whatever
the roster sizes. -/
theorem snippet_calls_le_25 (cfg : Config) (net : Str → Nat → NetResult)
    (ai : Str → UserPromptMsg → AiResult) (ts : Nat) (inp : Inputs) :
    (snippetCallsOf (run cfg net ai ts inp)).length ≤ 25 ∧
      ((snippetCallsOf (run cfg net ai ts inp)).dedup).length ≤ 25 := by
  have h : (snippetCallsOf (run cfg net ai ts inp)).length ≤ 25 := by
    rw [snippetCallsOf_run]
    split
    · simp
    · split
      · rw [names_for_news_parse_take]
        rw [List.length_take]
        omega
      · simp
  exact ⟨h, le_trans (List.Sublist.length_le (List.dedup_sublist _)) h⟩

/-- C4: if the parsed starters list is empty, the run halts in the error
state: no snippet fetch, no search network call, no completion call, no
analysis text, and no export document. -/
theorem run_halts_on_empty_starters (cfg : Config) (net : Str → Nat → NetResult)
    (ai : Str → UserPromptMsg → AiResult) (ts : Nat) (inp : Inputs)
    (h : parse_pasted_list inp.starters_txt = []) :
    run cfg net ai ts inp = RunResult.halted ∧
      snippetCallsOf (run cfg net ai ts inp) = [] ∧
      netSearchCallsOf (run cfg net ai ts inp) = [] ∧
      aiNetCallOf (run cfg net ai ts inp) = false ∧
      analysisOf (run cfg net ai ts inp) = none ∧
      exportOf (run cfg net ai ts inp) = none := by
  have hr : run cfg net ai ts inp = RunResult.halted := by
    simp only [run, h, if_pos]
  exact ⟨hr, by rw [hr]; rfl, by rw [hr]; rfl, by rw [hr]; rfl,
    by rw [hr]; rfl, by rw [hr]; rfl⟩

/-- C4 witness: a concrete run with empty starters text halts. -/
theorem run_halts_on_empty_starters_witness :
    run cfgNoSearch netNone aiNone 0 inpNoStarters = RunResult.halted :=
  (run_halts_on_empty_starters cfgNoSearch netNone aiNone 0 inpNoStarters (by decide)).1

theorem islist_isEmpty_iff {α : Type} (l : List α) : l.isEmpty = true ↔ l = [] := by
  cases l <;> simp

theorem google_news_snippets_dead (cfg : Config) (net : Str → Nat → NetResult)
    (query : Str) (num : Nat) (h1 : cfg.GOOGLE_CSE_ID = []) :
    google_news_snippets cfg net query num = ([], []) := by
  unfold google_news_snippets
  rw [if_pos (Or.inl (Or.inl h1))]

theorem snippetsFold_dead (cfg : Config) (net : Str → Nat → NetResult)
    (h1 : cfg.GOOGLE_CSE_ID = []) :
    ∀ (names : List Str) (acc : List (Str × List SearchItem)),
      (∀ q ∈ acc, q.2 = []) →
      (snippetsFold cfg net names acc).2 = [] ∧
        ∀ q ∈ (snippetsFold cfg net names acc).1, q.2 = [] := by
  intro names
  induction names with
  | nil => intro acc hacc; exact ⟨rfl, hacc⟩
  | cons name rest ih =>
    intro acc hacc
    simp only [snippetsFold, google_news_snippets_dead cfg net name 2 h1]
    have hins : ∀ q ∈ dictInsert acc name [], q.2 = [] := by
      intro q hq
      unfold dictInsert at hq
      split at hq
      · obtain ⟨q0, hq0, hq1⟩ := List.mem_map.mp hq
        by_cases hk : q0.1 = name
        · rw [if_pos hk] at hq1; rw [← hq1]
        · rw [if_neg hk] at hq1; rw [← hq1]; exact hacc q0 hq0
      · rcases List.mem_append.mp hq with hm | hm
        · exact hacc q hm
        · simp only [List.mem_singleton] at hm
          rw [hm]
    obtain ⟨ha, hb⟩ := ih (dictInsert acc name []) hins
    exact ⟨by simpa using ha, hb⟩

/-- C5 counterexample: with both search credentials absent but the search
toggle on and one starter, the run's snippet map is `{"A": []}` — a
one-entry map, not the empty map (the claim's "snippet map is the empty
map" fails; its values, not the map, are empty). -/
theorem snippet_map_not_empty_counterexample :
    cfgNoSearch.GOOGLE_CSE_ID = [] ∧ cfgNoSearch.GOOGLE_API_KEY = [] ∧
      googleSnippetsOf (run cfgNoSearch netNone aiNone 0 inpSearchOn) =
        some [("A".toList, [])] ∧
      googleSnippetsOf (run cfgNoSearch netNone aiNone 0 inpSearchOn) ≠ some [] :=
  ⟨rfl, rfl, by decide, by decide⟩

/-- C5 (amended): if the search credentials are absent then, for every
combination of user inputs and toggle settings, no search network call is
attempted and every value of the snippet map is the empty list. -/
theorem no_creds_no_search (cfg : Config) (net : Str → Nat → NetResult)
    (ai : Str → UserPromptMsg → AiResult) (ts : Nat) (inp : Inputs)
    (h1 : cfg.GOOGLE_CSE_ID = []) (_h2 : cfg.GOOGLE_API_KEY = []) :
    netSearchCallsOf (run cfg net ai ts inp) = [] ∧
      ((googleSnippetsOf (run cfg net ai ts inp)).getD []).all
        (fun q => q.2.isEmpty) = true := by
  simp only [run]
  split
  · exact ⟨rfl, rfl⟩
  · simp only [netSearchCallsOf, googleSnippetsOf]
    split
    · rename_i hg
      obtain ⟨ha, hb⟩ := snippetsFold_dead cfg net h1
        (names_for_news (parse_pasted_list inp.starters_txt)
          (parse_pasted_list inp.bench_txt) (parse_pasted_list inp.trade_targets_txt)
          (parse_pasted_list inp.fa_txt)) [] (by simp)
      refine ⟨ha, ?_⟩
      rw [List.all_eq_true]
      intro q hq
      rw [islist_isEmpty_iff]
      exact hb q (by simpa using hq)
    · exact ⟨rfl, rfl⟩

/-- C5 amended witness: concrete run with credentials absent, search toggle
on, one starter. -/
theorem no_creds_no_search_witness :
    netSearchCallsOf (run ⟨"sk".toList, [], []⟩ netNone aiNone 0 inpSearchOn) = [] ∧
      ((googleSnippetsOf (run ⟨"sk".toList, [], []⟩ netNone aiNone 0 inpSearchOn)).getD
        []).all (fun q => q.2.isEmpty) = true :=
  no_creds_no_search ⟨"sk".toList, [], []⟩ netNone aiNone 0 inpSearchOn rfl rfl

/-- C6: the completion client is a total function; with no credential it
returns the fixed disabled-feature placeholder (and attempts no endpoint
call), on an endpoint failure it returns the placeholder embedding the
error, and in the flow, when the client is used (AI toggle on) with the
credential absent, the analysis text is exactly the disabled-feature
placeholder. -/
theorem completion_client_spec :
    (∀ (cfg : Config) (ai : Str → UserPromptMsg → AiResult) (sp : Str)
        (up : UserPromptMsg), cfg.OPENAI_API_KEY = [] →
        openai_complete cfg ai sp up = (aiDisabledPlaceholder, false)) ∧
      (∀ (cfg : Config) (ai : Str → UserPromptMsg → AiResult) (sp : Str)
          (up : UserPromptMsg) (e : Str), cfg.OPENAI_API_KEY ≠ [] →
          ai sp up = AiResult.exn e →
          openai_complete cfg ai sp up = (aiErrorText e, true)) ∧
      (∀ (cfg : Config) (net : Str → Nat → NetResult)
          (ai : Str → UserPromptMsg → AiResult) (ts : Nat) (inp : Inputs),
          inp.use_ai = true → cfg.OPENAI_API_KEY = [] →
          parse_pasted_list inp.starters_txt ≠ [] →
          analysisOf (run cfg net ai ts inp) = some aiDisabledPlaceholder) := by
  refine ⟨?_, ?_, ?_⟩
  · intro cfg ai sp up h
    unfold openai_complete
    rw [if_pos h]
  · intro cfg ai sp up e h he
    unfold openai_complete
    rw [if_neg h, he]
  · intro cfg net ai ts inp hai hkey hstarters
    simp only [run, if_neg hstarters, analysisOf, hai, if_pos]
    unfold openai_complete
    rw [if_pos hkey]

/-- C6 witness: the three parts at concrete inputs. -/
theorem completion_client_spec_witness :
    openai_complete cfgNoAi aiNone systemPromptText prompt0 =
        (aiDisabledPlaceholder, false) ∧
      openai_complete cfgNoSearch aiNone systemPromptText prompt0 =
        (aiErrorText [], true) ∧
      analysisOf (run cfgNoAi netNone aiNone 0 inpAiOn) = some aiDisabledPlaceholder :=
  ⟨completion_client_spec.1 cfgNoAi aiNone systemPromptText prompt0 rfl,
    completion_client_spec.2.1 cfgNoSearch aiNone systemPromptText prompt0 []
      (by decide) rfl,
    completion_client_spec.2.2 cfgNoAi netNone aiNone 0 inpAiOn rfl rfl (by decide)⟩

/-- C8: end-to-end with both integrations toggled off, starters
`"QB Bo, RB Al"` and every other list empty: the run performs no external
call, the analysis equals the fixed manual-template placeholder, and the
export document carries the timestamp, the two starter names, and that
placeholder as its analysis field. -/
theorem end_to_end_disabled (cfg : Config) (net : Str → Nat → NetResult)
    (ai : Str → UserPromptMsg → AiResult) (ts : Nat)
    (scoring : Str) (rt wk : Nat) (lid : Str) :
    run cfg net ai ts (inputs8 scoring rt wk lid) =
      RunResult.done ⟨[], [], false⟩ ⟨taskText, payload8 scoring rt wk⟩
        manualTemplate
        ⟨ts, ⟨scoring, rt, wk⟩, payload8 scoring rt wk, manualTemplate⟩ := by
  have hparse : parse_pasted_list ("QB Bo, RB Al".toList) =
      ["QB Bo".toList, "RB Al".toList] := by decide
  simp only [run, inputs8, payload8, hparse]
  rfl

/-- C9: the sleeper league-identifier field influences nothing — two runs
whose inputs differ only in that field produce identical results (same
trace, same assembled prompt, same analysis text, same export document). -/
theorem league_id_unused (cfg : Config) (net : Str → Nat → NetResult)
    (ai : Str → UserPromptMsg → AiResult) (ts : Nat) (inp : Inputs) (lid : Str) :
    run cfg net ai ts inp = run cfg net ai ts { inp with sleeper_league_id := lid } := by
  cases inp
  rfl

end Fantasy
